import Mathlib

/-!
Verification of the thread store and context assembler of
`agentic_protein_design` (files `core/chat_store.py` and
`core/thread_context.py`), shallowly embedded in Lean.

Strings are modelled as Lean `String`/`List Char`; the character classes
mirror Python's ASCII semantics (`[A-Za-z0-9_]`, `[0-9a-fA-F]`, and the
ASCII part of `\s` / `str.strip()`).  The filesystem is modelled as an
association list from filename to file content as a reader sees it
(valid JSON, UTF-8 text that `json.loads` rejects, or bytes that
`read_text` cannot decode); wall-clock reads (`_now_iso`) and uuid draws
are passed in explicitly.
-/

namespace AgenticProteinDesign

/-- ASCII whitespace as used by Python's `str.strip()` and `\s`. -/
def pySpace (c : Char) : Bool :=
  c == ' ' || c == '\t' || c == '\n' || c == '\r' || c == '\x0b' || c == '\x0c'

/-- Membership in Python's character class `[A-Za-z0-9_]`. -/
def isWordChar (c : Char) : Bool :=
  ('A' ≤ c && c ≤ 'Z') || ('a' ≤ c && c ≤ 'z') || ('0' ≤ c && c ≤ '9') || c == '_'

/-- Membership in Python's character class `[0-9a-fA-F]`. -/
def isHexChar (c : Char) : Bool :=
  ('0' ≤ c && c ≤ '9') || ('a' ≤ c && c ≤ 'f') || ('A' ≤ c && c ≤ 'F')

/-- Membership in `[A-Za-z0-9]` (an alphanumeric, i.e. non-symbol, character). -/
def isAlnumChar (c : Char) : Bool :=
  ('A' ≤ c && c ≤ 'Z') || ('a' ≤ c && c ≤ 'z') || ('0' ≤ c && c ≤ '9')

/-- Whether the character list contains two adjacent underscores. -/
def hasDoubleUnderscoreList : List Char → Bool
  | '_' :: '_' :: _ => true
  | _ :: rest => hasDoubleUnderscoreList rest
  | [] => false

/-- Whether the string contains two adjacent underscores. -/
def hasConsecutiveUnderscores (s : String) : Bool :=
  hasDoubleUnderscoreList s.data

/-- `str.endswith(sfx)`: code-point suffix test (kernel-computable form
of `String.endsWith`). -/
def strEndsWith (s sfx : String) : Bool := sfx.data.isSuffixOf s.data

/-- `str.startswith(pre)`: code-point prefix test. -/
def strStartsWith (s pre : String) : Bool := pre.data.isPrefixOf s.data

/-- Drop characters satisfying `p` from both ends (Python `str.strip`). -/
def dropAround (p : Char → Bool) (l : List Char) : List Char :=
  ((l.dropWhile p).reverse.dropWhile p).reverse

/-- One pass of `re.sub(r"[^A-Za-z0-9_]+", "_", ·)`: every maximal run of
characters outside `[A-Za-z0-9_]` becomes a single underscore.  The flag
records whether the previous character was part of such a run. -/
def collapseNonWord : Bool → List Char → List Char
  | _, [] => []
  | inRun, c :: cs =>
    if isWordChar c then c :: collapseNonWord false cs
    else if inRun then collapseNonWord true cs
    else '_' :: collapseNonWord true cs

/-- `chat_store._sanitize_llm_process_tag`: on falsy input return `""`;
otherwise strip whitespace, replace non-word runs by `_`, then strip
underscores from both ends (Python `.strip("_")`). -/
def sanitize_llm_process_tag (s : String) : String :=
  if s = "" then ""
  else String.mk (dropAround (fun c => c == '_')
    (collapseNonWord false (dropAround pySpace s.data)))

/-- `chat_store._thread_filename`. -/
def thread_filename (thread_id : String) (llm_process_tag : String) : String :=
  let tag := sanitize_llm_process_tag llm_process_tag
  if tag = "" then thread_id ++ ".json"
  else tag ++ "_" ++ thread_id ++ ".json"

/-- JSON-like metadata values stored in thread/message metadata
(spec §9: string | number | bool | null | list | string-keyed map). -/
inductive Meta where
  | mnull : Meta
  | mbool : Bool → Meta
  | mnum : Int → Meta
  | mstr : String → Meta
  | marr : List Meta → Meta
  | mdict : List (String × Meta) → Meta

/-- A chat message as persisted by `chat_store.append_message`. -/
structure Message where
  message_id : String
  ts : String
  role : String
  content : String
  source_notebook : String
  metadata : Meta

/-- A thread payload as persisted by `chat_store.create_thread`. -/
structure Thread where
  thread_id : String
  root_key : String
  title : String
  created_at : String
  updated_at : String
  llm_process_tag : String
  metadata : List (String × Meta)
  messages : List Message

/-- Content of a file in the chats directory, as a reader sees it:
`parsed` holds a payload that `json.loads` accepts, `badJSON` is UTF-8
text that `json.loads` rejects (raising `json.JSONDecodeError`), and
`badBytes` is a file whose bytes `read_text(encoding="utf-8")` cannot
decode (raising `UnicodeDecodeError`, which is not a
`json.JSONDecodeError`). -/
inductive FileContent where
  | parsed : Thread → FileContent
  | badJSON : FileContent
  | badBytes : FileContent

/-- The chats directory: filename ↦ file content. -/
abbrev Store := List (String × FileContent)

/-- Content of the file named `k`, if a file named `k` exists. -/
def Store.lookupFile (s : Store) (k : String) : Option FileContent :=
  List.lookup k s

/-- `Path.exists` for the file named `k`. -/
def Store.hasFile (s : Store) (k : String) : Bool :=
  (Store.lookupFile s k).isSome

/-- `Path.write_text` of a (well-formed JSON) payload at filename `k`. -/
def Store.write (s : Store) (k : String) (v : Thread) : Store :=
  (k, FileContent.parsed v) :: s.filter (fun p => p.1 != k)

/-- The filenames present in the directory. -/
def Store.names (s : Store) : List String :=
  s.map Prod.fst

/-- Stable insertion of `x` into `l`: `x` goes in front of the first
element `y` with `le x y`.  Used to model Python's stable `sorted`/`sort`. -/
def insertLe (le : α → α → Bool) (x : α) : List α → List α
  | [] => [x]
  | y :: ys => if le x y then x :: y :: ys else y :: insertLe le x ys

/-- Stable insertion sort with respect to the boolean relation `le`;
extensionally equal to Python's (stable) `sorted` for a total `le`. -/
def sortLe (le : α → α → Bool) : List α → List α
  | [] => []
  | x :: xs => insertLe le x (sortLe le xs)

/-- Ascending lexicographic order on strings (Python `sorted` on paths of
one directory). -/
def nameLe (a b : String) : Bool := decide (a ≤ b)

/-- `sorted(base.glob(f"*_{thread_id}.json"))`: every non-hidden filename
ending in `_<thread_id>.json`, in ascending name order. -/
def globTailMatches (store : Store) (thread_id : String) : List String :=
  sortLe nameLe ((Store.names store).filter
    (fun n => strEndsWith n ("_" ++ thread_id ++ ".json") && !strStartsWith n "."))

/-- The `if p not in candidates: candidates.append(p)` loop of
`chat_store._candidate_thread_paths`. -/
def appendNew (acc : List String) (xs : List String) : List String :=
  xs.foldl (fun acc p => if acc.contains p then acc else acc ++ [p]) acc

/-- `chat_store._candidate_thread_paths`: canonical path first, then the
untagged legacy path if distinct, then the sorted glob fallbacks, deduplicated. -/
def candidate_thread_paths (store : Store) (thread_id llm_process_tag : String) :
    List String :=
  let c1 := thread_filename thread_id llm_process_tag
  let legacy := thread_filename thread_id ""
  let base := if legacy = c1 then [c1] else [c1, legacy]
  appendNew base (globTailMatches store thread_id)

/-- `chat_store.create_thread`.  `freshId` models `uuid.uuid4().hex` (used
when no `thread_id` is supplied) and `now` models `_now_iso()`.  On error
(`FileExistsError`) nothing is written. -/
def create_thread (store : Store) (root_key title : String)
    (metadata : List (String × Meta)) (thread_id : Option String)
    (llm_process_tag : String) (freshId now : String) :
    Except String (Thread × Store) :=
  let tid := thread_id.getD freshId
  let normalized_tag := sanitize_llm_process_tag llm_process_tag
  let path := thread_filename tid normalized_tag
  if Store.hasFile store path then
    Except.error ("Thread already exists: " ++ path)
  else
    let payload : Thread :=
      { thread_id := tid, root_key := root_key, title := title,
        created_at := now, updated_at := now,
        llm_process_tag := normalized_tag, metadata := metadata,
        messages := [] }
    Except.ok (payload, Store.write store path payload)

/-- Failure modes of `chat_store.load_thread`: `FileNotFoundError`
carrying the searched candidate list, a `json.JSONDecodeError`, or a
`UnicodeDecodeError` from `read_text` — none of the latter two is caught
by `load_thread`. -/
inductive LoadErr where
  | notFound : List String → LoadErr
  | decodeError : String → LoadErr
  | unicodeError : String → LoadErr

/-- The in-memory backfill of `chat_store.load_thread`:
`if not payload.get("llm_process_tag"): payload["llm_process_tag"] = _sanitize_llm_process_tag(llm_process_tag)`. -/
def backfillTag (payload : Thread) (llm_process_tag : String) : Thread :=
  if payload.llm_process_tag = "" then
    { payload with llm_process_tag := sanitize_llm_process_tag llm_process_tag }
  else payload

/-- `chat_store.load_thread`: first existing candidate wins; the
in-memory payload gets the sanitized lookup tag backfilled when its own
tag is empty; `FileNotFoundError` reports every candidate searched. -/
def load_thread (store : Store) (thread_id llm_process_tag : String) :
    Except LoadErr Thread :=
  let candidates := candidate_thread_paths store thread_id llm_process_tag
  match candidates.find? (fun n => Store.hasFile store n) with
  | none => Except.error (LoadErr.notFound candidates)
  | some path =>
    match Store.lookupFile store path with
    | some (FileContent.parsed payload) =>
      Except.ok (backfillTag payload llm_process_tag)
    | some FileContent.badBytes => Except.error (LoadErr.unicodeError path)
    | _ => Except.error (LoadErr.decodeError path)

/-- `chat_store.save_thread`: effective tag is
`sanitize(llm_process_tag or thread["llm_process_tag"])` (Python
truthiness: the override is used only when non-empty); sets the payload's
tag and `updated_at := now` and rewrites the canonical file in full. -/
def save_thread (store : Store) (thread : Thread) (llm_process_tag : String)
    (now : String) : Store :=
  let effective := sanitize_llm_process_tag
    (if llm_process_tag = "" then thread.llm_process_tag else llm_process_tag)
  let updated := { thread with llm_process_tag := effective, updated_at := now }
  Store.write store (thread_filename thread.thread_id effective) updated

/-- `chat_store.append_message`: load, construct the message (fresh uuid
`freshId`, clock read `ts`), push to the end of `messages`, save (second
clock read `now`). -/
def append_message (store : Store) (thread_id role content source_notebook : String)
    (metadata : Meta) (llm_process_tag : String) (freshId ts now : String) :
    Except LoadErr (Message × Store) :=
  match load_thread store thread_id llm_process_tag with
  | Except.error e => Except.error e
  | Except.ok thread =>
    let message : Message :=
      { message_id := freshId, ts := ts, role := role, content := content,
        source_notebook := source_notebook, metadata := metadata }
    let thread2 := { thread with messages := thread.messages ++ [message] }
    Except.ok (message, save_thread store thread2 llm_process_tag now)

/-- The match of `^(?P<tag>[A-Za-z0-9_]+)_(?P<tid>[0-9a-fA-F]{32})$`
(`thread_context.resolve_thread_identifier`).  Both anchors and the fixed
32-character hex group force the only possible split: the id group is the
last 32 characters, preceded by `_`, preceded by a non-empty word-char
run.  Returns the lower-cased id group on success. -/
def matchTagHex (l : List Char) : Option (List Char) :=
  if (l.reverse.take 32).length = 32 && (l.reverse.take 32).all isHexChar then
    match l.reverse.drop 32 with
    | [] => none
    | c :: tagr =>
      if c == '_' && !tagr.isEmpty && tagr.all isWordChar then
        some (((l.reverse.take 32).map Char.toLower).reverse)
      else none
  else none

/-- `ref[:-5] if ref.endswith(".json") else ref` from
`thread_context.resolve_thread_identifier`. -/
def resolveStem (ref : String) : List Char :=
  if strEndsWith ref ".json" then ref.data.take (ref.data.length - 5)
  else ref.data

/-- `thread_context.resolve_thread_identifier`: strip surrounding
whitespace (`str(thread_ref or "").strip()`), drop a trailing `.json`,
return the lower-cased hex id on a `<tag>_<32 hex>` match, otherwise the
stripped remainder. -/
def resolve_thread_identifier (thread_ref : String) : String :=
  if String.mk (dropAround pySpace thread_ref.data) = "" then
    String.mk (dropAround pySpace thread_ref.data)
  else
    match matchTagHex (resolveStem (String.mk (dropAround pySpace thread_ref.data))) with
    | some tid => String.mk tid
    | none => String.mk (resolveStem (String.mk (dropAround pySpace thread_ref.data)))

/-- Python regex `.`: any character except newline. -/
def dotAny (c : Char) : Bool := c != '\n'

/-- `re.search(r"^(?:/|\\./|\\.\\./|~\\/)", text)` from
`thread_context._walk_metadata_for_paths`, transcribed literally: inside
the raw string each `\\` is an escaped backslash, so the alternatives
match `/`, `\<any>/`, `\<any>\<any>/` and `~\/` at the start — not
`./`, `../`, `~/`. -/
def pathAnchorOk : List Char → Bool
  | '/' :: _ => true
  | '\\' :: c :: '/' :: _ => dotAny c
  | '\\' :: c :: '\\' :: d :: '/' :: _ => dotAny c && dotAny d
  | '~' :: '\\' :: '/' :: _ => true
  | _ => false

/-- The recognised path-like filename extensions. -/
def extList : List String :=
  [".md", ".csv", ".json", ".txt", ".tsv", ".parquet", ".yaml", ".yml"]

/-- `re.search(r"\.(?:md|csv|json|txt|tsv|parquet|yaml|yml)$", text, re.IGNORECASE)`
(ASCII case folding). -/
def extOk (l : List Char) : Bool :=
  extList.any (fun e => strEndsWith (String.mk (l.map Char.toLower)) e)

/-- The string-scalar test of `thread_context._walk_metadata_for_paths`,
applied to the already-stripped text: non-empty, length ≤ 400, no
newline or carriage return, no whitespace anywhere, and either the
anchor regex or the extension regex matches. -/
def isPathCandidateText (text : List Char) : Bool :=
  !text.isEmpty && !(text.length > 400) &&
  !(text.contains '\n' || text.contains '\r') &&
  !(text.any pySpace) &&
  (pathAnchorOk text || extOk text)

/-- `thread_context._walk_metadata_for_paths`: mappings are walked by
value, sequences by element; a string scalar is stripped and collected
when it passes `isPathCandidateText`.  (The Python code accumulates into
a set; the traversal order of this list is irrelevant because the caller
sorts and deduplicates.) -/
def walkMeta : Meta → List String
  | Meta.mnull => []
  | Meta.mbool _ => []
  | Meta.mnum _ => []
  | Meta.mstr s =>
    let text := dropAround pySpace s.data
    if isPathCandidateText text then [String.mk text] else []
  | Meta.marr xs => xs.attach.flatMap (fun x => walkMeta x.1)
  | Meta.mdict kvs => kvs.attach.flatMap (fun kv => walkMeta kv.1.2)
decreasing_by
  · have := List.sizeOf_lt_of_mem x.2
    simp only [Meta.marr.sizeOf_spec]
    omega
  · have h1 := List.sizeOf_lt_of_mem kv.2
    have h2 : sizeOf kv.1.2 < sizeOf kv.1 := by
      cases kv.1
      simp only [Prod.mk.sizeOf_spec]
      omega
    simp only [Meta.mdict.sizeOf_spec]
    omega

/-- The raw-candidate phase of `thread_context.extract_referenced_file_paths`:
all candidate strings collected from every message's metadata, as the
sorted deduplicated sequence the resolution loop (`for raw in
sorted(raw_values)`) iterates over.  (Resolution against the actual
filesystem — `_collect_path_candidates` / `Path.exists` — is outside this
pure model.) -/
def extract_raw_candidates (messages : List Message) : List String :=
  sortLe nameLe ((messages.flatMap (fun m => walkMeta m.metadata)).dedup)

/-- The `for msg in reversed(messages)` loop of
`thread_context.build_thread_context_bundle`, with its Python-truthiness
"not found yet" tests (`not latest_assistant` / `not latest_user`) and
its early `break` once both accumulators are truthy.  The input list is
the reversed message list; result is `(latest_assistant, latest_user)`. -/
def scanLatest (la lu : String) : List Message → String × String
  | [] => (la, lu)
  | m :: rest =>
    let la2 := if la == "" && m.role == "assistant" then m.content else la
    let lu2 := if lu == "" && m.role == "user" then m.content else lu
    if la2 != "" && lu2 != "" then (la2, lu2) else scanLatest la2 lu2 rest

/-- The derived context bundle (`thread_context.build_thread_context_bundle`). -/
structure ContextBundle where
  thread_id : String
  root_key : String
  llm_process_tag : String
  thread_file : String
  n_messages : Nat
  latest_user_message : String
  latest_assistant_message : String
  referenced_files : List String
  referenced_file_contents : List (String × String)

/-- `thread_context.build_thread_context_bundle`, given the loaded
payload.  The filesystem-dependent inputs (the path of the loaded file
and the resolved/bounded-read referenced files) are passed in; the
latest-message fields are computed by `scanLatest` over the reversed
message list exactly as in the source. -/
def build_thread_context_bundle (payload : Thread) (thread_file : String)
    (referenced_files : List String)
    (referenced_file_contents : List (String × String)) : ContextBundle :=
  let p := scanLatest "" "" payload.messages.reverse
  { thread_id := payload.thread_id, root_key := payload.root_key,
    llm_process_tag := payload.llm_process_tag, thread_file := thread_file,
    n_messages := payload.messages.length,
    latest_user_message := p.2, latest_assistant_message := p.1,
    referenced_files := referenced_files,
    referenced_file_contents := referenced_file_contents }

/-- Result record of `thread_context.build_thread_context_text`. -/
structure ContextText where
  context_text : String
  context_bundle : Option ContextBundle
  context_error : String

/-- `thread_context.build_thread_context_text`.  `env` abstracts the
filesystem-reading call `build_thread_context_bundle(ref, ...)` (its
`FileNotFoundError` modelled as `Except.error`); the blank-reference
guard, the `on_missing` handling and the text assembly follow the
source.  (`on_missing == "warn"` also prints a diagnostic; console
output is not modelled.) -/
def build_thread_context_text
    (env : String → Bool → Nat → Except String ContextBundle)
    (thread_ref : Option String) (include_referenced_files : Bool)
    (max_chars_per_file : Nat) (on_missing : String) :
    Except String ContextText :=
  if String.mk (dropAround pySpace (thread_ref.getD "").data) = "" then
    Except.ok { context_text := "", context_bundle := none, context_error := "" }
  else
    match env (String.mk (dropAround pySpace (thread_ref.getD "").data))
        include_referenced_files max_chars_per_file with
    | Except.error msg =>
      if on_missing = "raise" then Except.error msg
      else Except.ok { context_text := "", context_bundle := none, context_error := msg }
    | Except.ok bundle =>
      let fileBlocks := bundle.referenced_file_contents.map
        (fun pt => "FILE: " ++ pt.1 ++ "\n" ++ pt.2)
      let context_text := String.mk (dropAround pySpace
        (String.intercalate "\n\n"
          [bundle.latest_user_message, bundle.latest_assistant_message,
           String.intercalate "\n\n" fileBlocks]).data)
      Except.ok { context_text := context_text, context_bundle := some bundle,
                  context_error := "" }

/-- The per-call inputs of one `append_message` invocation: the uuid draw,
the two clock reads (`ts` for the message, `now` for the save), and the
caller-supplied message fields. -/
structure AppendCall where
  freshId : String
  ts : String
  now : String
  role : String
  content : String
  source_notebook : String
  metadata : Meta

/-- The message `append_message` constructs for the call `c`. -/
def messageOfCall (c : AppendCall) : Message :=
  { message_id := c.freshId, ts := c.ts, role := c.role, content := c.content,
    source_notebook := c.source_notebook, metadata := c.metadata }

/-- N sequential `append_message` calls against the same
`(thread_id, llm_process_tag)`, propagating the store. -/
def appendRun (store : Store) (thread_id llm_process_tag : String) :
    List AppendCall → Except LoadErr Store
  | [] => Except.ok store
  | c :: cs =>
    match append_message store thread_id c.role c.content c.source_notebook
        c.metadata llm_process_tag c.freshId c.ts c.now with
    | Except.error e => Except.error e
    | Except.ok (_, store2) => appendRun store2 thread_id llm_process_tag cs

/-- The `updated_at` persisted at the canonical path, read back after each
call of the run (`""` if the call failed or the file is missing). -/
def runUpdatedTrace (store : Store) (thread_id llm_process_tag : String) :
    List AppendCall → List String
  | [] => []
  | c :: cs =>
    match append_message store thread_id c.role c.content c.source_notebook
        c.metadata llm_process_tag c.freshId c.ts c.now with
    | Except.error _ => []
    | Except.ok (_, store2) =>
      (match Store.lookupFile store2 (thread_filename thread_id llm_process_tag) with
       | some (FileContent.parsed t) => t.updated_at
       | _ => "") :: runUpdatedTrace store2 thread_id llm_process_tag cs

/-! ## Lemmas about stripping and collapsing -/

theorem dropAround_eq (p : Char → Bool) (l : List Char) :
    dropAround p l = List.rdropWhile p (List.dropWhile p l) := rfl

theorem head?_dropWhile_not (p : Char → Bool) :
    ∀ (l : List Char) (c : Char), (List.dropWhile p l).head? = some c → p c = false := by
  intro l
  induction l with
  | nil => intro c h; simp at h
  | cons a as ih =>
    intro c h
    rw [List.dropWhile_cons] at h
    split at h
    · exact ih c h
    · simp only [List.head?_cons, Option.some.injEq] at h
      rw [← h]
      simpa using ‹¬ p a = true›

theorem head?_of_isPrefix {l₁ l₂ : List Char} {c : Char} (h : l₁ <+: l₂)
    (hc : l₁.head? = some c) : l₂.head? = some c := by
  obtain ⟨t, rfl⟩ := h
  cases l₁ with
  | nil => simp at hc
  | cons a as => simpa using hc

theorem mem_dropAround {p : Char → Bool} {l : List Char} {c : Char}
    (h : c ∈ dropAround p l) : c ∈ l := by
  rw [dropAround_eq] at h
  exact (List.dropWhile_sublist p).subset ((List.rdropWhile_prefix p _).sublist.subset h)

theorem dropAround_head? {p : Char → Bool} {l : List Char} {c : Char}
    (h : (dropAround p l).head? = some c) : p c = false := by
  rw [dropAround_eq] at h
  exact head?_dropWhile_not p l c
    (head?_of_isPrefix (List.rdropWhile_prefix p (List.dropWhile p l)) h)

theorem dropAround_getLast? {p : Char → Bool} {l : List Char} {c : Char}
    (h : (dropAround p l).getLast? = some c) : p c = false := by
  rw [dropAround_eq, List.rdropWhile, List.getLast?_reverse] at h
  exact head?_dropWhile_not p _ c h

theorem dropAround_eq_self {p : Char → Bool} {l : List Char}
    (h1 : ∀ c, l.head? = some c → p c = false)
    (h2 : ∀ c, l.getLast? = some c → p c = false) :
    dropAround p l = l := by
  rw [dropAround_eq]
  have hd : List.dropWhile p l = l := by
    cases l with
    | nil => rfl
    | cons a as =>
      have := h1 a rfl
      simp [List.dropWhile_cons, this]
  rw [hd, List.rdropWhile_eq_self_iff]
  intro hl
  have := h2 (l.getLast hl) (List.getLast?_eq_getLast l hl)
  simp [this]

theorem dropAround_eq_nil {p : Char → Bool} {l : List Char}
    (h : ∀ c ∈ l, p c = true) : dropAround p l = [] := by
  rw [dropAround_eq, List.dropWhile_eq_nil_iff.mpr (by simpa using h)]
  simp

theorem mem_collapseNonWord : ∀ (b : Bool) (l : List Char) (c : Char),
    c ∈ collapseNonWord b l → isWordChar c = true := by
  intro b l
  induction l generalizing b with
  | nil => intro c h; simp [collapseNonWord] at h
  | cons a as ih =>
    intro c h
    rw [collapseNonWord] at h
    split at h
    · rcases List.mem_cons.mp h with rfl | h
      · assumption
      · exact ih false c h
    · split at h
      · exact ih true c h
      · rcases List.mem_cons.mp h with rfl | h
        · decide
        · exact ih true c h

theorem mem_collapseNonWord_src : ∀ (b : Bool) (l : List Char) (c : Char),
    c ∈ collapseNonWord b l → c = '_' ∨ c ∈ l := by
  intro b l
  induction l generalizing b with
  | nil => intro c h; simp [collapseNonWord] at h
  | cons a as ih =>
    intro c h
    rw [collapseNonWord] at h
    split at h
    · rcases List.mem_cons.mp h with rfl | h
      · exact Or.inr (List.mem_cons_self _ _)
      · rcases ih false c h with h | h
        · exact Or.inl h
        · exact Or.inr (List.mem_cons_of_mem _ h)
    · split at h
      · rcases ih true c h with h | h
        · exact Or.inl h
        · exact Or.inr (List.mem_cons_of_mem _ h)
      · rcases List.mem_cons.mp h with rfl | h
        · exact Or.inl rfl
        · rcases ih true c h with h | h
          · exact Or.inl h
          · exact Or.inr (List.mem_cons_of_mem _ h)

theorem collapseNonWord_eq_self : ∀ (b : Bool) (l : List Char),
    (∀ c ∈ l, isWordChar c = true) → collapseNonWord b l = l := by
  intro b l
  induction l generalizing b with
  | nil => intro _; rfl
  | cons a as ih =>
    intro h
    rw [collapseNonWord, if_pos (h a (List.mem_cons_self _ _)),
      ih false (fun c hc => h c (List.mem_cons_of_mem _ hc))]

theorem pySpace_not_word {c : Char} (h : pySpace c = true) : isWordChar c = false := by
  simp only [pySpace, Bool.or_eq_true, beq_iff_eq] at h
  rcases h with ((((h|h)|h)|h)|h)|h <;> subst h <;> decide

theorem word_not_pySpace {c : Char} (h : isWordChar c = true) : pySpace c = false := by
  cases hp : pySpace c
  · rfl
  · rw [pySpace_not_word hp] at h
    exact absurd h (by simp)

/-! ## Shape of the sanitized tag -/

theorem sanitize_data_word (s : String) :
    ∀ c ∈ (sanitize_llm_process_tag s).data, isWordChar c = true := by
  intro c hc
  unfold sanitize_llm_process_tag at hc
  split at hc
  · simp [String.data] at hc
  · exact mem_collapseNonWord false _ c (mem_dropAround hc)

theorem sanitize_head_not_underscore (s : String) :
    ∀ c, (sanitize_llm_process_tag s).data.head? = some c → c ≠ '_' := by
  intro c hc
  unfold sanitize_llm_process_tag at hc
  split at hc
  · simp [String.data] at hc
  · have := dropAround_head? hc
    simpa using this

theorem sanitize_last_not_underscore (s : String) :
    ∀ c, (sanitize_llm_process_tag s).data.getLast? = some c → c ≠ '_' := by
  intro c hc
  unfold sanitize_llm_process_tag at hc
  split at hc
  · simp [String.data] at hc
  · have := dropAround_getLast? hc
    simpa using this

theorem mem_of_head?_eq_some {l : List Char} {c : Char} (h : l.head? = some c) : c ∈ l := by
  cases l with
  | nil => simp at h
  | cons a as =>
    simp only [List.head?_cons, Option.some.injEq] at h
    subst h
    exact List.mem_cons_self _ _

theorem mem_of_getLast?_eq_some {l : List Char} {c : Char} (h : l.getLast? = some c) : c ∈ l := by
  have : c ∈ l.reverse.head? := by rw [List.head?_reverse]; exact h ▸ rfl
  have : c ∈ l.reverse := mem_of_head?_eq_some (by rwa [List.head?_reverse])
  simpa using this

theorem sanitize_fixed (t : String)
    (hword : ∀ c ∈ t.data, isWordChar c = true)
    (hh : ∀ c, t.data.head? = some c → c ≠ '_')
    (hl : ∀ c, t.data.getLast? = some c → c ≠ '_') :
    sanitize_llm_process_tag t = t := by
  by_cases h0 : t = ""
  · rw [h0]; rfl
  · unfold sanitize_llm_process_tag
    rw [if_neg h0]
    have h1 : dropAround pySpace t.data = t.data := by
      refine dropAround_eq_self (fun c hc => ?_) (fun c hc => ?_)
      · exact word_not_pySpace (hword c (mem_of_head?_eq_some hc))
      · exact word_not_pySpace (hword c (mem_of_getLast?_eq_some hc))
    rw [h1, collapseNonWord_eq_self false _ hword]
    have h3 : dropAround (fun c => c == '_') t.data = t.data := by
      refine dropAround_eq_self (fun c hc => ?_) (fun c hc => ?_)
      · simpa using hh c hc
      · simpa using hl c hc
    rw [h3]

theorem sanitize_idem (s : String) :
    sanitize_llm_process_tag (sanitize_llm_process_tag s) = sanitize_llm_process_tag s :=
  sanitize_fixed _ (sanitize_data_word s) (sanitize_head_not_underscore s)
    (sanitize_last_not_underscore s)

theorem isWordChar_split (c : Char) : isWordChar c = (isAlnumChar c || c == '_') := by
  simp [isWordChar, isAlnumChar, Bool.or_assoc]

theorem sanitize_all_symbol (s : String)
    (h : ∀ c ∈ s.data, isAlnumChar c = false) : sanitize_llm_process_tag s = "" := by
  unfold sanitize_llm_process_tag
  split
  · rfl
  · have hall : ∀ c ∈ collapseNonWord false (dropAround pySpace s.data), (c == '_') = true := by
      intro c hc
      rcases mem_collapseNonWord_src false _ c hc with rfl | hc2
      · simp
      · have hw := mem_collapseNonWord false _ c hc
        have ha := h c (mem_dropAround hc2)
        rw [isWordChar_split, ha] at hw
        simpa using hw
    rw [dropAround_eq_nil hall]

/-- C9: applying the tag sanitizer twice gives the same result as applying
it once: `_sanitize_llm_process_tag` is idempotent on every string. -/
theorem sanitize_llm_process_tag_idempotent (x : String) :
    sanitize_llm_process_tag (sanitize_llm_process_tag x) = sanitize_llm_process_tag x :=
  sanitize_idem x

/-- C5 (counterexample): the claim "the sanitized tag contains no two
consecutive underscores" is false: underscores already adjacent in the
input survive, since `re.sub(r"[^A-Za-z0-9_]+", "_", ·)` does not touch
underscores and `.strip("_")` only trims the ends. -/
theorem sanitize_llm_process_tag_double_underscore :
    sanitize_llm_process_tag "a__b" = "a__b" ∧
    hasConsecutiveUnderscores (sanitize_llm_process_tag "a__b") = true := by
  constructor
  · rfl
  · rfl

/-- C5 (amended): for every input string the sanitized process tag
consists only of characters in `[A-Za-z0-9_]` and has no leading and no
trailing underscore, and empty or all-symbol (no alphanumeric character)
input sanitizes to the empty string; consecutive underscores already
present in the input may however survive in the output. -/
theorem sanitize_llm_process_tag_shape (s : String) :
    (∀ c ∈ (sanitize_llm_process_tag s).data, isWordChar c = true) ∧
    (∀ c, (sanitize_llm_process_tag s).data.head? = some c → c ≠ '_') ∧
    (∀ c, (sanitize_llm_process_tag s).data.getLast? = some c → c ≠ '_') ∧
    (s = "" → sanitize_llm_process_tag s = "") ∧
    ((∀ c ∈ s.data, isAlnumChar c = false) → sanitize_llm_process_tag s = "") :=
  ⟨sanitize_data_word s, sanitize_head_not_underscore s,
   sanitize_last_not_underscore s, fun h => by rw [h]; rfl,
   sanitize_all_symbol s⟩

/-- C5 (witness): the amended shape theorem evaluated on concrete inputs:
`" lit review! "` sanitizes to `"lit_review"` (word characters only, no
underscore at either end) and the all-symbol input `"__!!__"` sanitizes
to the empty string. -/
theorem sanitize_llm_process_tag_shape_witness :
    sanitize_llm_process_tag " lit review! " = "lit_review" ∧
    'l' ≠ '_' ∧ 'w' ≠ '_' ∧ sanitize_llm_process_tag "__!!__" = "" := by
  refine ⟨by rfl, ?_, ?_, ?_⟩
  · exact (sanitize_llm_process_tag_shape " lit review! ").2.1 'l' (by rfl)
  · exact (sanitize_llm_process_tag_shape " lit review! ").2.2.1 'w' (by rfl)
  · exact (sanitize_llm_process_tag_shape "__!!__").2.2.2.2 (by decide)

/-! ## Lemmas about the stable insertion sort -/

theorem lookupFile_write_self (s : Store) (k : String) (v : Thread) :
    Store.lookupFile (Store.write s k v) k = some (FileContent.parsed v) := by
  simp [Store.write, Store.lookupFile]

theorem lookup_filter_ne (s : Store) (k k' : String) (h : k' ≠ k) :
    List.lookup k' (s.filter (fun p => p.1 != k)) = List.lookup k' s := by
  induction s with
  | nil => rfl
  | cons a as ih =>
    obtain ⟨k1, v1⟩ := a
    by_cases h1 : k1 = k
    · subst h1
      have hb : (k' == k1) = false := by simpa using h
      simp [List.filter_cons, List.lookup, hb, ih]
    · have hb : (k1 != k) = true := by simpa using h1
      by_cases h2 : k' = k1
      · subst h2
        simp [List.filter_cons, hb, List.lookup]
      · have hb2 : (k' == k1) = false := by simpa using h2
        simp [List.filter_cons, hb, List.lookup, hb2, ih]

theorem lookupFile_write_ne (s : Store) (k : String) (v : Thread) (k' : String)
    (h : k' ≠ k) :
    Store.lookupFile (Store.write s k v) k' = Store.lookupFile s k' := by
  unfold Store.write Store.lookupFile
  have hb : (k' == k) = false := by simpa using h
  simp only [List.lookup, hb]
  exact lookup_filter_ne s k k' h

theorem thread_filename_sanitize (tid tag : String) :
    thread_filename tid (sanitize_llm_process_tag tag) = thread_filename tid tag := by
  unfold thread_filename
  rw [sanitize_idem]

theorem thread_filename_untagged (tid : String) :
    thread_filename tid "" = tid ++ ".json" := rfl

theorem thread_filename_tagged (tid tag : String)
    (h : sanitize_llm_process_tag tag ≠ "") :
    thread_filename tid tag
      = sanitize_llm_process_tag tag ++ "_" ++ tid ++ ".json" := by
  unfold thread_filename
  simp only [h, if_false]

theorem thread_filename_tag_ne_untagged (tid tag : String)
    (h : sanitize_llm_process_tag tag ≠ "") :
    thread_filename tid tag ≠ thread_filename tid "" := by
  rw [thread_filename_tagged tid tag h, thread_filename_untagged]
  intro heq
  have hlen := congrArg String.length heq
  have h5 : ".json".length = 5 := by decide
  have h1 : "_".length = 1 := by decide
  simp only [String.length_append, h5, h1] at hlen
  omega

theorem create_thread_err (store : Store) (root_key title : String)
    (metadata : List (String × Meta)) (tid tag freshId now : String)
    (hex : Store.hasFile store (thread_filename tid tag) = true) :
    create_thread store root_key title metadata (some tid) tag freshId now
      = Except.error ("Thread already exists: " ++ thread_filename tid tag) := by
  unfold create_thread
  simp only [Option.getD_some, thread_filename_sanitize, hex, if_true]

theorem create_thread_ok (store : Store) (root_key title : String)
    (metadata : List (String × Meta)) (tid tag freshId now : String)
    (hex : Store.hasFile store (thread_filename tid tag) = false) :
    create_thread store root_key title metadata (some tid) tag freshId now
      = Except.ok
          ({ thread_id := tid, root_key := root_key, title := title,
             created_at := now, updated_at := now,
             llm_process_tag := sanitize_llm_process_tag tag,
             metadata := metadata, messages := [] },
           Store.write store (thread_filename tid tag)
             { thread_id := tid, root_key := root_key, title := title,
               created_at := now, updated_at := now,
               llm_process_tag := sanitize_llm_process_tag tag,
               metadata := metadata, messages := [] }) := by
  unfold create_thread
  simp only [Option.getD_some, thread_filename_sanitize, hex, Bool.false_eq_true, if_false]

/-- C2: `create_thread` fails with `FileExistsError` exactly when a file
already sits at the canonical path for the requested
`(thread_id, sanitized tag)` — writing nothing in that case — and never
consults the legacy or glob fallback paths, so a tagged and an untagged
create for the same `thread_id` both succeed and leave two distinct
coexisting files. -/
theorem create_thread_checks_only_canonical
    (store : Store) (root_key title : String) (metadata : List (String × Meta))
    (tid llm_process_tag freshId now : String) :
    (Store.hasFile store (thread_filename tid llm_process_tag) = true →
      create_thread store root_key title metadata (some tid) llm_process_tag freshId now
        = Except.error ("Thread already exists: " ++ thread_filename tid llm_process_tag)) ∧
    (Store.hasFile store (thread_filename tid llm_process_tag) = false →
      ∃ payload,
        create_thread store root_key title metadata (some tid) llm_process_tag freshId now
          = Except.ok (payload,
              Store.write store (thread_filename tid llm_process_tag) payload) ∧
        payload.thread_id = tid ∧
        payload.llm_process_tag = sanitize_llm_process_tag llm_process_tag ∧
        payload.created_at = now ∧ payload.updated_at = now ∧
        payload.messages = []) ∧
    (sanitize_llm_process_tag llm_process_tag ≠ "" →
      Store.hasFile store (thread_filename tid llm_process_tag) = false →
      Store.hasFile store (thread_filename tid "") = false →
      ∃ p1 s1 p2 s2,
        create_thread store root_key title metadata (some tid) llm_process_tag freshId now
          = Except.ok (p1, s1) ∧
        create_thread s1 root_key title metadata (some tid) "" freshId now
          = Except.ok (p2, s2) ∧
        Store.lookupFile s2 (thread_filename tid llm_process_tag) = some (FileContent.parsed p1) ∧
        Store.lookupFile s2 (thread_filename tid "") = some (FileContent.parsed p2) ∧
        thread_filename tid llm_process_tag ≠ thread_filename tid "") := by
  refine ⟨create_thread_err store root_key title metadata tid llm_process_tag freshId now,
    fun hex => ⟨_, create_thread_ok store root_key title metadata tid llm_process_tag
      freshId now hex, rfl, rfl, rfl, rfl, rfl⟩,
    fun htag hex1 hex2 => ?_⟩
  have hne := thread_filename_tag_ne_untagged tid llm_process_tag htag
  have hfile2 : Store.hasFile
      (Store.write store (thread_filename tid llm_process_tag)
        { thread_id := tid, root_key := root_key, title := title,
          created_at := now, updated_at := now,
          llm_process_tag := sanitize_llm_process_tag llm_process_tag,
          metadata := metadata, messages := [] })
      (thread_filename tid "") = false := by
    unfold Store.hasFile
    rw [lookupFile_write_ne _ _ _ _ (Ne.symm hne)]
    exact hex2
  refine ⟨_, _, _, _,
    create_thread_ok store root_key title metadata tid llm_process_tag freshId now hex1,
    create_thread_ok _ root_key title metadata tid "" freshId now hfile2,
    ?_, ?_, hne⟩
  · rw [lookupFile_write_ne _ _ _ _ hne]
    exact lookupFile_write_self _ _ _
  · exact lookupFile_write_self _ _ _

/-- C2 (witness): on the empty directory, creating thread `"ab"` twice —
once under tag `"lit review"` and once untagged — both succeed and the
two files `lit_review_ab.json` and `ab.json` coexist. -/
theorem create_thread_checks_only_canonical_witness :
    ∃ p1 s1 p2 s2,
      create_thread [] "upo" "t" [] (some "ab") "lit review" "f" "now"
        = Except.ok (p1, s1) ∧
      create_thread s1 "upo" "t" [] (some "ab") "" "f" "now"
        = Except.ok (p2, s2) ∧
      Store.lookupFile s2 (thread_filename "ab" "lit review") = some (FileContent.parsed p1) ∧
      Store.lookupFile s2 (thread_filename "ab" "") = some (FileContent.parsed p2) ∧
      thread_filename "ab" "lit review" ≠ thread_filename "ab" "" :=
  (create_thread_checks_only_canonical [] "upo" "t" [] "ab" "lit review" "f"
    "now").2.2 (by decide) (by decide) (by decide)

/-! ## Lemmas about candidate paths and the loader -/

theorem appendNew_nil (acc : List String) : appendNew acc [] = acc := rfl

theorem appendNew_cons (acc : List String) (x : String) (xs : List String) :
    appendNew acc (x :: xs)
      = appendNew (if acc.contains x then acc else acc ++ [x]) xs := rfl

theorem find?_appendNew (p : String → Bool) (acc xs : List String) :
    (appendNew acc xs).find? p = (acc ++ xs).find? p := by
  induction xs generalizing acc with
  | nil => simp [appendNew_nil]
  | cons x xs ih =>
    rw [appendNew_cons]
    by_cases hc : acc.contains x
    · rw [if_pos hc, ih]
      have hx : x ∈ acc := by simpa using hc
      rw [List.find?_append, List.find?_append]
      cases hacc : acc.find? p with
      | some v => rfl
      | none =>
        have hx2 : p x = false := by
          have := List.find?_eq_none.mp hacc x hx
          simpa using this
        simp [List.find?_cons, hx2]
    · rw [if_neg hc, ih, List.append_assoc]
      rfl

theorem load_thread_found (store : Store) (tid tag n : String) (t : Thread)
    (hfind : (candidate_thread_paths store tid tag).find?
        (fun c => Store.hasFile store c) = some n)
    (hlook : Store.lookupFile store n = some (FileContent.parsed t)) :
    load_thread store tid tag = Except.ok (backfillTag t tag) := by
  unfold load_thread
  simp only [hfind, hlook]

theorem find?_candidates (store : Store) (tid tag : String) (p : String → Bool) :
    (candidate_thread_paths store tid tag).find? p
      = ((if thread_filename tid "" = thread_filename tid tag
          then [thread_filename tid tag]
          else [thread_filename tid tag, thread_filename tid ""])
         ++ globTailMatches store tid).find? p :=
  find?_appendNew p _ _

theorem backfillTag_self (t : Thread) (tag : String)
    (h : t.llm_process_tag = sanitize_llm_process_tag tag) :
    backfillTag t tag = t := by
  unfold backfillTag
  split
  · rw [← h]
  · rfl

theorem load_thread_canonical (store : Store) (tid tag : String) (t : Thread)
    (ht : Store.lookupFile store (thread_filename tid tag) = some (FileContent.parsed t)) :
    load_thread store tid tag = Except.ok (backfillTag t tag) := by
  apply load_thread_found store tid tag (thread_filename tid tag) t _ ht
  rw [find?_candidates]
  have hp : Store.hasFile store (thread_filename tid tag) = true := by
    unfold Store.hasFile
    rw [ht]
    rfl
  split <;> simp [List.find?_cons, hp]

theorem effective_tag_eq (tag tg : String)
    (htag : tg = sanitize_llm_process_tag tag) :
    sanitize_llm_process_tag (if tag = "" then tg else tag)
      = sanitize_llm_process_tag tag := by
  split
  · rw [htag]
    exact sanitize_idem tag
  · rfl

theorem append_message_step (store : Store) (tid tag : String) (th : Thread)
    (hlook : Store.lookupFile store (thread_filename tid tag) = some (FileContent.parsed th))
    (hid : th.thread_id = tid)
    (htag : th.llm_process_tag = sanitize_llm_process_tag tag)
    (role content nb : String) (md : Meta) (freshId ts now : String) :
    append_message store tid role content nb md tag freshId ts now
      = Except.ok
          ({ message_id := freshId, ts := ts, role := role, content := content,
             source_notebook := nb, metadata := md },
           Store.write store (thread_filename tid tag)
             { th with
               messages := th.messages
                 ++ [{ message_id := freshId, ts := ts, role := role,
                       content := content, source_notebook := nb, metadata := md }],
               updated_at := now }) := by
  unfold append_message
  rw [load_thread_canonical store tid tag th hlook, backfillTag_self th tag htag]
  unfold save_thread
  obtain ⟨tid0, rk, ti, ca, ua, tg, md0, ms⟩ := th
  simp only at hid htag ⊢
  subst hid
  have heff := effective_tag_eq tag tg htag
  simp only [heff]
  rw [thread_filename_sanitize, ← htag]

/-- Invariant run of `appendRun`: starting from a store whose canonical
file holds a thread with the right id and (sanitized) tag, every call
succeeds, each message is pushed to the end in call order, and the
persisted `updated_at` after each call is that call's save-time clock
reading. -/
theorem appendRun_spec (tid tag : String) :
    ∀ (calls : List AppendCall) (store : Store) (th : Thread),
    Store.lookupFile store (thread_filename tid tag) = some (FileContent.parsed th) →
    th.thread_id = tid →
    th.llm_process_tag = sanitize_llm_process_tag tag →
    ∃ store2,
      appendRun store tid tag calls = Except.ok store2 ∧
      runUpdatedTrace store tid tag calls = calls.map AppendCall.now ∧
      ∃ th2, Store.lookupFile store2 (thread_filename tid tag) = some (FileContent.parsed th2) ∧
        th2.thread_id = tid ∧
        th2.llm_process_tag = sanitize_llm_process_tag tag ∧
        th2.messages = th.messages ++ calls.map messageOfCall ∧
        th2.updated_at = (calls.map AppendCall.now).getLastD th.updated_at := by
  intro calls
  induction calls with
  | nil =>
    intro store th h1 h2 h3
    exact ⟨store, rfl, rfl, th, h1, h2, h3, by simp, by simp⟩
  | cons c cs ih =>
    intro store th h1 h2 h3
    have hstep := append_message_step store tid tag th h1 h2 h3
      c.role c.content c.source_notebook c.metadata c.freshId c.ts c.now
    have hlook2 := lookupFile_write_self store (thread_filename tid tag)
      { th with
        messages := th.messages
          ++ [{ message_id := c.freshId, ts := c.ts, role := c.role,
                content := c.content, source_notebook := c.source_notebook,
                metadata := c.metadata }],
        updated_at := c.now }
    obtain ⟨s3, hrun, htrace, th2, hl3, hid3, htag3, hmsg3, hupd3⟩ :=
      ih _ _ hlook2 h2 h3
    refine ⟨s3, ?_, ?_, th2, hl3, hid3, htag3, ?_, ?_⟩
    · rw [appendRun]
      simp only [hstep]
      exact hrun
    · rw [runUpdatedTrace]
      simp only [hstep, hlook2, htrace, List.map_cons]
    · rw [hmsg3]
      simp [messageOfCall, List.append_assoc]
    · rw [List.map_cons, List.getLastD_cons]
      exact hupd3

/-- C4: starting from a freshly created thread, after N sequential
`append_message` calls the persisted `messages` list is exactly the N
appended messages in call order (each pushed to the end), and — provided
the wall-clock readings are non-decreasing — `updated_at` is monotonically
non-decreasing across the creation and the N appends. -/
theorem append_messages_order_and_monotonicity
    (store : Store) (root_key title : String) (metadata : List (String × Meta))
    (tid tag freshId t0 : String) (calls : List AppendCall)
    (p0 : Thread) (s0 : Store)
    (hcreate : create_thread store root_key title metadata (some tid) tag freshId t0
      = Except.ok (p0, s0))
    (hchain : List.Chain' (· ≤ ·) (t0 :: calls.map AppendCall.now)) :
    ∃ store2 th2,
      appendRun s0 tid tag calls = Except.ok store2 ∧
      Store.lookupFile store2 (thread_filename tid tag) = some (FileContent.parsed th2) ∧
      th2.messages = calls.map messageOfCall ∧
      th2.messages.length = calls.length ∧
      runUpdatedTrace s0 tid tag calls = calls.map AppendCall.now ∧
      List.Chain' (· ≤ ·) (p0.updated_at :: runUpdatedTrace s0 tid tag calls) := by
  cases hfile : Store.hasFile store (thread_filename tid tag) with
  | true =>
    rw [create_thread_err store root_key title metadata tid tag freshId t0 hfile]
      at hcreate
    exact absurd hcreate (by simp)
  | false =>
    rw [create_thread_ok store root_key title metadata tid tag freshId t0 hfile]
      at hcreate
    injection hcreate with hpair
    rw [Prod.ext_iff] at hpair
    obtain ⟨hp0, hs0⟩ := hpair
    dsimp only at hp0 hs0
    subst hp0
    subst hs0
    obtain ⟨store2, hrun, htrace, th2, hl, hid, htag, hmsg, hupd⟩ :=
      appendRun_spec tid tag calls _
        { thread_id := tid, root_key := root_key, title := title,
          created_at := t0, updated_at := t0,
          llm_process_tag := sanitize_llm_process_tag tag,
          metadata := metadata, messages := [] }
        (lookupFile_write_self _ _ _) rfl rfl
    refine ⟨store2, th2, hrun, hl, by simpa using hmsg, ?_, htrace, ?_⟩
    · rw [hmsg]
      simp
    · rw [htrace]
      exact hchain

/-- C4 (witness): creating thread `"ab"` under tag `"tg"` at time `"t1"`
and appending two messages with save-time clock readings also `"t1"`
yields a two-message thread and a non-decreasing `updated_at` chain. -/
theorem append_messages_order_witness :
    ∃ store2 th2,
      appendRun
        (Store.write [] (thread_filename "ab" "tg")
          { thread_id := "ab", root_key := "upo", title := "t",
            created_at := "t1", updated_at := "t1",
            llm_process_tag := sanitize_llm_process_tag "tg",
            metadata := [], messages := [] })
        "ab" "tg"
        [{ freshId := "m1", ts := "t1", now := "t1", role := "user",
           content := "hi", source_notebook := "nb", metadata := Meta.mnull },
         { freshId := "m2", ts := "t1", now := "t1", role := "assistant",
           content := "ok", source_notebook := "nb", metadata := Meta.mnull }]
        = Except.ok store2 ∧
      Store.lookupFile store2 (thread_filename "ab" "tg") = some (FileContent.parsed th2) ∧
      th2.messages.length = 2 ∧
      List.Chain' (· ≤ ·) ("t1" :: runUpdatedTrace
        (Store.write [] (thread_filename "ab" "tg")
          { thread_id := "ab", root_key := "upo", title := "t",
            created_at := "t1", updated_at := "t1",
            llm_process_tag := sanitize_llm_process_tag "tg",
            metadata := [], messages := [] })
        "ab" "tg"
        [{ freshId := "m1", ts := "t1", now := "t1", role := "user",
           content := "hi", source_notebook := "nb", metadata := Meta.mnull },
         { freshId := "m2", ts := "t1", now := "t1", role := "assistant",
           content := "ok", source_notebook := "nb", metadata := Meta.mnull }]) := by
  obtain ⟨store2, th2, h1, h2, h3, h4, h5, h6⟩ :=
    append_messages_order_and_monotonicity [] "upo" "t" [] "ab" "tg" "f" "t1"
      [{ freshId := "m1", ts := "t1", now := "t1", role := "user",
         content := "hi", source_notebook := "nb", metadata := Meta.mnull },
       { freshId := "m2", ts := "t1", now := "t1", role := "assistant",
         content := "ok", source_notebook := "nb", metadata := Meta.mnull }]
      _ _
      (create_thread_ok [] "upo" "t" [] "ab" "tg" "f" "t1" (by decide))
      (by simp)
  exact ⟨store2, th2, h1, h2, by rw [h4]; rfl, h6⟩

/-! ## Lemmas for the directory listing -/

theorem filterMap_insertLe_none {α β : Type _} (le : α → α → Bool) (f : α → Option β)
    (x : α) (hx : f x = none) :
    ∀ m : List α, (insertLe le x m).filterMap f = m.filterMap f := by
  intro m
  induction m with
  | nil => simp [insertLe, List.filterMap_cons, hx]
  | cons y ys ih =>
    rw [insertLe]
    split
    · simp only [List.filterMap_cons, hx]
    · simp only [List.filterMap_cons, ih]

theorem latestAcc_step (role0 : String) (m : Message) (rest : List Message) (la : String) :
    (if (if la == "" && m.role == role0 then m.content else la) = ""
     then ((rest.find? (fun x => x.role == role0 && x.content != "")).map
            Message.content).getD ""
     else (if la == "" && m.role == role0 then m.content else la))
    = (if la = ""
       then (((m :: rest).find? (fun x => x.role == role0 && x.content != "")).map
              Message.content).getD ""
       else la) := by
  by_cases hla : la = ""
  · subst hla
    by_cases hrole : m.role = role0
    · by_cases hcont : m.content = ""
      · simp [List.find?_cons, hrole, hcont]
      · simp [List.find?_cons, hrole, hcont]
    · simp [List.find?_cons, hrole]
  · simp [hla]

theorem scanLatest_spec : ∀ (l : List Message) (la lu : String),
    scanLatest la lu l
      = ((if la = ""
          then ((l.find? (fun x => x.role == "assistant" && x.content != "")).map
                Message.content).getD ""
          else la),
         (if lu = ""
          then ((l.find? (fun x => x.role == "user" && x.content != "")).map
                Message.content).getD ""
          else lu)) := by
  intro l
  induction l with
  | nil =>
    intro la lu
    simp only [scanLatest, List.find?_nil, Option.map_none', Option.getD_none]
    have h1 : (if la = "" then "" else la) = la := by split <;> simp_all
    have h2 : (if lu = "" then "" else lu) = lu := by split <;> simp_all
    rw [h1, h2]
  | cons m rest ih =>
    intro la lu
    simp only [scanLatest]
    have h1 := latestAcc_step "assistant" m rest la
    have h2 := latestAcc_step "user" m rest lu
    set la2 := if la == "" && m.role == "assistant" then m.content else la with hla2def
    set lu2 := if lu == "" && m.role == "user" then m.content else lu with hlu2def
    split
    · rename_i hb
      rw [Bool.and_eq_true] at hb
      have hla2 : la2 ≠ "" := by simpa using hb.1
      have hlu2 : lu2 ≠ "" := by simpa using hb.2
      rw [if_neg hla2] at h1
      rw [if_neg hlu2] at h2
      rw [← h1, ← h2]
    · rw [ih, h1, h2]

/-- C7 (counterexample): with messages `[user "hi", assistant "hello",
assistant ""]`, the most recent assistant-role message has content `""`,
yet the bundle reports `"hello"`: the loop's Python-truthiness test
`not latest_assistant` conflates "not found yet" with "found with empty
content", so the claim that the field holds the content of the most
recent message of that role is false. -/
theorem bundle_latest_assistant_not_most_recent :
    (List.getLast? [(⟨"i1", "t1", "user", "hi", "nb", Meta.mnull⟩ : Message),
        ⟨"i2", "t2", "assistant", "hello", "nb", Meta.mnull⟩,
        ⟨"i3", "t3", "assistant", "", "nb", Meta.mnull⟩]).map
        (fun m => (m.role, m.content)) = some ("assistant", "") ∧
    (build_thread_context_bundle
        ⟨"id", "upo", "t", "t1", "t3", "", [],
          [⟨"i1", "t1", "user", "hi", "nb", Meta.mnull⟩,
           ⟨"i2", "t2", "assistant", "hello", "nb", Meta.mnull⟩,
           ⟨"i3", "t3", "assistant", "", "nb", Meta.mnull⟩]⟩
        "" [] []).latest_assistant_message = "hello" ∧
    ("hello" : String) ≠ "" :=
  ⟨rfl, rfl, by decide⟩

/-- C7 (amended): `build_thread_context_bundle` sets
`latest_assistant_message` and `latest_user_message` to the content of
the most recent message of the matching role whose content is non-empty
(scanning from the end independently for each role, stopping once both
are found), and to the empty string when no such message exists;
messages of the right role with empty content are skipped. -/
theorem bundle_latest_messages (payload : Thread) (thread_file : String)
    (referenced_files : List String)
    (referenced_file_contents : List (String × String)) :
    (build_thread_context_bundle payload thread_file referenced_files
        referenced_file_contents).latest_assistant_message
      = ((payload.messages.reverse.find?
            (fun m => m.role == "assistant" && m.content != "")).map
          Message.content).getD "" ∧
    (build_thread_context_bundle payload thread_file referenced_files
        referenced_file_contents).latest_user_message
      = ((payload.messages.reverse.find?
            (fun m => m.role == "user" && m.content != "")).map
          Message.content).getD "" := by
  unfold build_thread_context_bundle
  rw [scanLatest_spec]
  exact ⟨rfl, rfl⟩

/-! ## Lemmas about the thread-identifier normalizer -/

theorem matchTagHex_some_iff (l t : List Char) :
    matchTagHex l = some t ↔
      ∃ tag tid : List Char, l = tag ++ '_' :: tid ∧ tid.length = 32 ∧
        tid.all isHexChar = true ∧ tag ≠ [] ∧ tag.all isWordChar = true ∧
        t = tid.map Char.toLower := by
  constructor
  · intro h
    unfold matchTagHex at h
    split at h
    · rename_i hc1
      simp only [Bool.and_eq_true, decide_eq_true_eq] at hc1
      split at h
      · exact absurd h (by simp)
      · rename_i c tagr heq
        split at h
        · rename_i hc2
          simp only [Bool.and_eq_true, beq_iff_eq, Bool.not_eq_true',
            List.isEmpty_eq_false] at hc2
          injection h with ht
          refine ⟨tagr.reverse, (l.reverse.take 32).reverse, ?_, ?_, ?_, ?_, ?_, ?_⟩
          · have hl : l = (l.reverse.take 32 ++ l.reverse.drop 32).reverse := by
              rw [List.take_append_drop, List.reverse_reverse]
            conv_lhs => rw [hl, heq]
            rw [List.reverse_append, List.reverse_cons, hc2.1.1,
              List.append_assoc, List.singleton_append]
          · simpa using hc1.1
          · simpa using hc1.2
          · simpa using hc2.1.2
          · simpa using hc2.2
          · rw [← ht, List.map_reverse]
        · exact absurd h (by simp)
    · exact absurd h (by simp)
  · rintro ⟨tag, tid, rfl, hlen, hhex, htagne, hword, rfl⟩
    unfold matchTagHex
    have hr : (tag ++ '_' :: tid).reverse = tid.reverse ++ '_' :: tag.reverse := by
      rw [List.reverse_append, List.reverse_cons, List.append_assoc,
        List.singleton_append]
    have hlenrev : tid.reverse.length = 32 := by simpa using hlen
    have htake : (tid.reverse ++ '_' :: tag.reverse).take 32 = tid.reverse :=
      List.take_left' hlenrev
    have hdrop : (tid.reverse ++ '_' :: tag.reverse).drop 32 = '_' :: tag.reverse :=
      List.drop_left' hlenrev
    rw [hr, htake, hdrop, if_pos (by simp [hlenrev, hhex])]
    show (if (('_' == '_' && !tag.reverse.isEmpty && tag.reverse.all isWordChar) = true)
        then some ((List.map Char.toLower tid.reverse).reverse) else none)
      = some (List.map Char.toLower tid)
    rw [if_pos (by simp [htagne, hword])]
    rw [List.map_reverse, List.reverse_reverse]

/-- C8 (counterexample): `resolve_thread_identifier` strips surrounding
whitespace and a trailing `.json` before matching, and on a failed match
returns that stripped remainder — not the input unchanged: `" x.json "`
resolves to `"x"`. -/
theorem resolve_thread_identifier_strips :
    resolve_thread_identifier " x.json " = "x" ∧ ("x" : String) ≠ " x.json " :=
  ⟨rfl, by decide⟩

/-- C8 (amended): `resolve_thread_identifier` strips surrounding
whitespace, then a trailing `.json` suffix; if the remainder decomposes
as `<tag>_<32 hex digits>` (tag non-empty over `[A-Za-z0-9_]`, hex
case-insensitive) it returns the lower-cased 32-hex id group, and
otherwise it returns the stripped remainder (rather than the original
input); it never raises and consults nothing on the filesystem (it is a
pure function of its argument). -/
theorem resolve_thread_identifier_spec (thread_ref : String) :
    (∀ tag tid : List Char,
      resolveStem (String.mk (dropAround pySpace thread_ref.data)) = tag ++ '_' :: tid →
      tid.length = 32 → tid.all isHexChar = true → tag ≠ [] →
      tag.all isWordChar = true →
      resolve_thread_identifier thread_ref = String.mk (tid.map Char.toLower)) ∧
    (matchTagHex (resolveStem (String.mk (dropAround pySpace thread_ref.data))) = none →
      resolve_thread_identifier thread_ref
        = String.mk (resolveStem (String.mk (dropAround pySpace thread_ref.data)))) ∧
    (matchTagHex (resolveStem (String.mk (dropAround pySpace thread_ref.data))) = none ↔
      ¬ ∃ tag tid : List Char,
        resolveStem (String.mk (dropAround pySpace thread_ref.data)) = tag ++ '_' :: tid ∧
        tid.length = 32 ∧ tid.all isHexChar = true ∧ tag ≠ [] ∧
        tag.all isWordChar = true) := by
  refine ⟨?_, ?_, ?_⟩
  · intro tag tid hstem hlen hhex htagne hword
    have hsome : matchTagHex (resolveStem (String.mk (dropAround pySpace thread_ref.data)))
        = some (tid.map Char.toLower) :=
      (matchTagHex_some_iff _ _).mpr ⟨tag, tid, hstem, hlen, hhex, htagne, hword, rfl⟩
    unfold resolve_thread_identifier
    split
    · rename_i hempty
      rw [hempty] at hsome
      have : resolveStem "" = [] := rfl
      rw [this] at hsome
      have : matchTagHex ([] : List Char) = none := rfl
      rw [this] at hsome
      exact absurd hsome (by simp)
    · rw [hsome]
  · intro hnone
    unfold resolve_thread_identifier
    split
    · rename_i hempty
      rw [hempty]
      rfl
    · rw [hnone]
  · constructor
    · intro hnone hex
      obtain ⟨tag, tid, h1, h2, h3, h4, h5⟩ := hex
      have := (matchTagHex_some_iff _ (tid.map Char.toLower)).mpr
        ⟨tag, tid, h1, h2, h3, h4, h5, rfl⟩
      rw [hnone] at this
      exact absurd this (by simp)
    · intro hnex
      cases hm : matchTagHex (resolveStem (String.mk (dropAround pySpace thread_ref.data))) with
      | none => rfl
      | some t =>
        obtain ⟨tag, tid, h1, h2, h3, h4, h5, _⟩ := (matchTagHex_some_iff _ t).mp hm
        exact absurd ⟨tag, tid, h1, h2, h3, h4, h5⟩ hnex

/-- C8 (witness): `"lit_review_DEADBEEFdeadbeefdeadbeefdeadbeef.json"`
resolves to the lower-cased hex id
`"deadbeefdeadbeefdeadbeefdeadbeef"`. -/
theorem resolve_thread_identifier_spec_witness :
    resolve_thread_identifier "lit_review_DEADBEEFdeadbeefdeadbeefdeadbeef.json"
      = String.mk (("DEADBEEFdeadbeefdeadbeefdeadbeef".data).map Char.toLower) :=
  (resolve_thread_identifier_spec
      "lit_review_DEADBEEFdeadbeefdeadbeefdeadbeef.json").1
    "lit_review".data "DEADBEEFdeadbeefdeadbeefdeadbeef".data
    (by decide) (by decide) (by decide) (by decide) (by decide)

/-! ## The metadata walk and the blank-reference guard -/

/-- C1 (code bug): in `_walk_metadata_for_paths` the anchor pattern is the
raw string `r"^(?:/|\\./|\\.\\./|~\\/)"`, whose doubled backslashes are
escaped backslashes for the regex engine; it therefore matches a literal
backslash prefix such as `\a/q` — not the intended relative prefixes
`./`, `../`, `~/`.  So `./run.sh` (spec: a path candidate, since it
starts with `./`) is not collected, while the nonsensical `\a/q` is;
absolute paths and recognised extensions still work. -/
theorem walk_metadata_backslash_bug :
    isPathCandidateText "./run.sh".data = false ∧
    walkMeta (Meta.mstr "./run.sh") = [] ∧
    isPathCandidateText "\\a/q".data = true ∧
    walkMeta (Meta.mstr "\\a/q") = ["\\a/q"] ∧
    isPathCandidateText "../run.sh".data = false ∧
    isPathCandidateText "~/run.sh".data = false ∧
    isPathCandidateText "/abs/run.sh".data = true ∧
    isPathCandidateText "x.MD".data = true := by
  refine ⟨by decide, ?_, by decide, ?_, by decide, by decide, by decide, by decide⟩
  · simp only [walkMeta]
    decide
  · simp only [walkMeta]
    decide

/-- C10: with a `None`, empty, or all-whitespace thread reference,
`build_thread_context_text` returns
`{context_text := "", context_bundle := none, context_error := ""}`
without raising and without consulting the thread loader (the result is
the same for every loader environment), for every `on_missing` mode,
including `"raise"`. -/
theorem build_thread_context_text_blank_ref
    (env : String → Bool → Nat → Except String ContextBundle)
    (thread_ref : Option String) (include_referenced_files : Bool)
    (max_chars_per_file : Nat) (on_missing : String)
    (h : ∀ c ∈ (thread_ref.getD "").data, pySpace c = true) :
    build_thread_context_text env thread_ref include_referenced_files
        max_chars_per_file on_missing
      = Except.ok { context_text := "", context_bundle := none,
                    context_error := "" } := by
  unfold build_thread_context_text
  rw [dropAround_eq_nil h]
  rfl

/-- C10 (witness): a whitespace-only reference with `on_missing="raise"`
and a `None` reference with `on_missing="warn"`, against an environment
that always fails, both return the empty result without raising. -/
theorem build_thread_context_text_blank_ref_witness :
    build_thread_context_text (fun _ _ _ => Except.error "boom") (some "   ")
        true 20000 "raise"
      = Except.ok { context_text := "", context_bundle := none,
                    context_error := "" } ∧
    build_thread_context_text (fun _ _ _ => Except.error "boom") none
        false 0 "warn"
      = Except.ok { context_text := "", context_bundle := none,
                    context_error := "" } :=
  ⟨build_thread_context_text_blank_ref _ (some "   ") true 20000 "raise" (by decide),
   build_thread_context_text_blank_ref _ none false 0 "warn" (by decide)⟩

end AgenticProteinDesign
